import Mathlib

/-!
Verification of the node-reference resolution and query orchestration engine
of the sql-canvas repository.

The development shallowly embeds:
 - the reference scanner, the regex loop over the pattern "open brace,
   one or more non-close-brace characters, close brace" used in
   `server/index.js` and `src/utils/database.ts` (`matchAll`), as a
   left-to-right character automaton (`scanInners`);
 - the server endpoint `POST /api/query/local/with-references`
   (`handleWithReferences`) and `POST /api/query/local` (`handleLocal`)
   from `server/index.js`;
 - the serialization of cached rows into the CREATE TEMP TABLE statement
   (`createTableSQL`), from `server/index.js` lines 68-83;
 - the server-side `executeSQL` from `server/database.js`;
 - the client helpers `executeSQL` / `executeSQLWithReferences` from
   `src/utils/database.ts` (`clientExecuteSQL`,
   `clientExecuteSQLWithReferences`).

The analytical engine (DuckDB) is modeled at the level the claims need:
its catalog of ephemeral relations is a list of relation names; CREATE
TEMP TABLE fails when the name is already present, DROP TABLE fails when
it is absent (standard DDL semantics assumed by the spec), and query
execution is an oracle that reads the catalog but does not change it.
-/

/-- Character constants, written via code points so that brace and quote
characters never appear literally in the file. -/
def openBrace : Char := Char.ofNat 123

def closeBrace : Char := Char.ofNat 125

def squote : Char := Char.ofNat 39

/-- Whitespace recognised by the embedded `trim` (space, tab, LF, CR). -/
def isSpaceChar (c : Char) : Bool :=
  c = Char.ofNat 32 || c = Char.ofNat 9 || c = Char.ofNat 10 || c = Char.ofNat 13

/-- Embedding of JavaScript `String.prototype.trim`. -/
def trimChars (l : List Char) : List Char :=
  ((l.dropWhile isSpaceChar).reverse.dropWhile isSpaceChar).reverse

def jsTrim (s : String) : String := String.mk (trimChars s.data)

/-- A scanned reference: the exact matched substring (raw span, braces
included) and the trimmed label, as produced by
`sql.matchAll(/pattern/g)` followed by `match[1].trim()`. -/
structure Reference where
  rawSpan : List Char
  label : String
  deriving DecidableEq

def mkRef (inner : List Char) : Reference :=
  { rawSpan := openBrace :: inner ++ [closeBrace]
    label := jsTrim (String.mk inner) }

/-- The scan loop of the global regex "open brace, one or more non-close
characters, close brace": left to right, non-overlapping, leftmost-first.
State none: outside any candidate match; state some acc: an open brace
has been read and acc holds the (reversed) inner characters read so far.
A close brace with nonempty inner emits a match and resumes outside; a
close brace with empty inner emits nothing (the regex does not match an
empty group and the engine moves on); end of input discards a pending
open brace (the regex finds no further match without a close brace). -/
def scanInners : List Char → Option (List Char) → List (List Char)
  | [], _ => []
  | c :: rest, none =>
    if c = openBrace then scanInners rest (some []) else scanInners rest none
  | c :: rest, some acc =>
    if c = closeBrace then
      if acc.isEmpty then scanInners rest none
      else acc.reverse :: scanInners rest none
    else scanInners rest (some (c :: acc))

/-- All references scanned from a query string, in source order. -/
def scanRefs (sql : String) : List Reference :=
  (scanInners sql.data none).map mkRef

/-- Test whether pat is a prefix of the second list. -/
def leadsWith : List Char → List Char → Bool
  | [], _ => true
  | _ :: _, [] => false
  | p :: ps, c :: cs => if p = c then leadsWith ps cs else false

/-- Embedding of JavaScript `String.prototype.replace` with a plain string
pattern: replace the leftmost occurrence only; if the pattern does not
occur, return the string unchanged. -/
def replaceFirst (pat repl : List Char) : List Char → List Char
  | [] => []
  | c :: rest =>
    if leadsWith pat (c :: rest) then repl ++ (c :: rest).drop pat.length
    else c :: replaceFirst pat repl rest

/-- Characters kept by the sanitizer: the class A-Z a-z 0-9 underscore. -/
def wordChar (c : Char) : Bool :=
  ('a' ≤ c && c ≤ 'z') || ('A' ≤ c && c ≤ 'Z') || ('0' ≤ c && c ≤ '9') || c = '_'

def sanitizeChar (c : Char) : Char := if wordChar c then c else '_'

/-- Relation name generation from `server/index.js` line 65: the label
with every character outside the word class replaced by underscore,
prefixed with the fixed marker. No other component enters the name. -/
def tempTableName (label : String) : String :=
  "temp_" ++ String.mk (label.data.map sanitizeChar)

/-- The query rewriting loop from `server/index.js` lines 89-94: a fold of
first-occurrence replacement over the scanned matches in order. -/
def rewriteChars (sql : List Char) (ms : List Reference) : List Char :=
  ms.foldl (fun acc m => replaceFirst m.rawSpan (tempTableName m.label).data acc) sql

/-- Scalar values carried by cached result rows (JSON scalars). -/
inductive Value where
  | vnum : Int → Value
  | vstr : String → Value
  | vbool : Bool → Value
  | vnull : Value
  deriving DecidableEq

/-- A row is an ordered mapping from column name to value. -/
abbrev Row := List (String × Value)

def jsStringOfBool (b : Bool) : String := if b then "true" else "false"

/-- Per-character quote escaping: the global replace of a single quote by
two single quotes. -/
def escQuote (c : Char) : List Char := if c = squote then [squote, squote] else [c]

def escapeQuotes (l : List Char) : List Char := l.flatMap escQuote

/-- Serialization of one cell, from `server/index.js` lines 73-78:
null or absent becomes the engine null literal, numbers are unquoted,
everything else is stringified, quote-escaped and single-quoted. -/
def serializeVal : Option Value → String
  | none => "NULL"
  | some Value.vnull => "NULL"
  | some (Value.vnum n) => toString n
  | some (Value.vstr s) => String.mk (squote :: escapeQuotes s.data ++ [squote])
  | some (Value.vbool b) => String.mk (squote :: escapeQuotes (jsStringOfBool b).data ++ [squote])

/-- Object key lookup on a row. -/
def rowLookup (r : Row) (col : String) : Option Value :=
  (r.find? (fun p => p.1 = col)).map (fun p => p.2)

/-- Column list of the materialized relation: the keys of the first row. -/
def headKeys : List Row → List String
  | [] => []
  | r :: _ => r.map (fun p => p.1)

def rowValues (columns : List String) (r : Row) : String :=
  "(" ++ String.intercalate ", " (columns.map (fun col => serializeVal (rowLookup r col))) ++ ")"

def valuesClause (columns : List String) (rows : List Row) : String :=
  String.intercalate ",\n" (rows.map (rowValues columns))

def columnAliases (columns : List String) : String :=
  String.intercalate ", " (columns.map (fun c => "\"" ++ c ++ "\""))

/-- The CREATE TEMP TABLE statement built in `server/index.js` line 83. -/
def createTableSQL (name : String) (rows : List Row) : String :=
  "CREATE TEMP TABLE " ++ name ++ " AS SELECT * FROM (VALUES " ++
    valuesClause (headKeys rows) rows ++ ") AS t(" ++ columnAliases (headKeys rows) ++ ")"

/-- The engine catalog of ephemeral relations, by name. -/
abbrev Engine := List String

def dupTableMsg (name : String) : String := "Table " ++ name ++ " already exists"

def noTableMsg (name : String) : String := "Table " ++ name ++ " does not exist"

/-- DDL create: fails when the name is already taken. -/
def createTable (name : String) (st : Engine) : Except String Engine :=
  if name ∈ st then Except.error (dupTableMsg name) else Except.ok (name :: st)

/-- DDL drop: fails when the name is absent. -/
def dropTable (name : String) (st : Engine) : Except String Engine :=
  if name ∈ st then Except.ok (st.erase name) else Except.error (noTableMsg name)

/-- The cleanup loops of `server/index.js` lines 99-106 and 110-117: drop
each recorded name in order, ignoring every drop failure. -/
def cleanupTables (temps : List String) (st : Engine) : Engine :=
  temps.foldl (fun s n => match dropTable n s with
    | Except.ok s2 => s2
    | Except.error _ => s) st

/-- Read-only query execution, supplied by the engine. -/
abbrev Oracle := String → Engine → Except String (List Row)

/-- Server-side `executeSQL` from `server/database.js` lines 280-291: trim,
reject an all-whitespace query before touching the engine, otherwise run
the trimmed text. The first component records the text actually handed to
the engine, none when the engine was never invoked. -/
def executeSQL (oracle : Oracle) (sql : String) (st : Engine) :
    Option String × Except String (List Row) :=
  let t := jsTrim sql
  if t = "" then (none, Except.error "Empty query") else (some t, oracle t st)

/-- One entry of the request body references map:
`references[label] = { results, label }`; results may be absent. -/
structure RefData where
  results : Option (List Row)
  deriving DecidableEq

def noResultsMsg (label : String) : String :=
  "Node \"" ++ label ++ "\" has no results"

/-- The guard at `server/index.js` line 60: the reference entry is falsy,
or its results field is falsy, or the results array is empty. -/
def resolveFails (rd : Option RefData) : Bool :=
  match rd with
  | none => true
  | some r =>
    match r.results with
    | none => true
    | some rows => rows.isEmpty

/-- Result of the create loop of `server/index.js` lines 56-86. temps is
the tempTables array (a name is pushed before its CREATE runs), created
lists the names whose CREATE succeeded, state is the engine catalog, and
err the error that aborted the loop, if any. -/
structure LoopResult where
  temps : List String
  created : List String
  state : Engine
  err : Option String
  deriving DecidableEq

/-- The create loop: per scanned occurrence (no deduplication), check the
reference entry, derive the name, push it onto tempTables, then run the
CREATE; stop at the first thrown error. -/
def materializeLoop (references : String → Option RefData) :
    List Reference → List String → List String → Engine → LoopResult
  | [], temps, created, st => { temps := temps, created := created, state := st, err := none }
  | m :: rest, temps, created, st =>
    if resolveFails (references m.label) then
      { temps := temps, created := created, state := st, err := some (noResultsMsg m.label) }
    else
      let name := tempTableName m.label
      match createTable name st with
      | Except.error e =>
        { temps := temps ++ [name], created := created, state := st, err := some e }
      | Except.ok st2 =>
        materializeLoop references rest (temps ++ [name]) (created ++ [name]) st2

/-- Observable outcome of one with-references request: the final engine
catalog, the response body, and the instrumented trace (tempTables
content, successfully created names, text handed to the engine). -/
structure WithRefsResult where
  state : Engine
  data : Option (List Row)
  error : Option String
  attempted : List String
  created : List String
  executed : Option String
  deriving DecidableEq

/-- Embedding of `POST /api/query/local/with-references`
(`server/index.js` lines 40-124): reject a falsy sql, scan, create one
temp table per occurrence, rewrite, execute, and on every exit path drop
everything recorded in tempTables, ignoring drop failures. -/
def handleWithReferences (oracle : Oracle) (sql : String)
    (references : String → Option RefData) (st : Engine) : WithRefsResult :=
  if sql = "" then
    { state := st, data := none, error := some "SQL query is required"
      attempted := [], created := [], executed := none }
  else
    let ms := scanRefs sql
    let lr := materializeLoop references ms [] [] st
    match lr.err with
    | some e =>
      { state := cleanupTables lr.temps lr.state, data := none, error := some e
        attempted := lr.temps, created := lr.created, executed := none }
    | none =>
      let modifiedSQL := String.mk (rewriteChars sql.data ms)
      match executeSQL oracle modifiedSQL lr.state with
      | (exq, Except.error e) =>
        { state := cleanupTables lr.temps lr.state, data := none, error := some e
          attempted := lr.temps, created := lr.created, executed := exq }
      | (exq, Except.ok rows) =>
        { state := cleanupTables lr.temps lr.state, data := some rows, error := none
          attempted := lr.temps, created := lr.created, executed := exq }

/-- The same endpoint with both cleanup loops removed; used to state that
cleanup (and any drop failure inside it) never alters the response. -/
def handleWithReferencesNoCleanup (oracle : Oracle) (sql : String)
    (references : String → Option RefData) (st : Engine) : WithRefsResult :=
  if sql = "" then
    { state := st, data := none, error := some "SQL query is required"
      attempted := [], created := [], executed := none }
  else
    let ms := scanRefs sql
    let lr := materializeLoop references ms [] [] st
    match lr.err with
    | some e =>
      { state := lr.state, data := none, error := some e
        attempted := lr.temps, created := lr.created, executed := none }
    | none =>
      let modifiedSQL := String.mk (rewriteChars sql.data ms)
      match executeSQL oracle modifiedSQL lr.state with
      | (exq, Except.error e) =>
        { state := lr.state, data := none, error := some e
          attempted := lr.temps, created := lr.created, executed := exq }
      | (exq, Except.ok rows) =>
        { state := lr.state, data := some rows, error := none
          attempted := lr.temps, created := lr.created, executed := exq }

/-- Observable outcome of one plain request. -/
structure LocalResult where
  state : Engine
  data : Option (List Row)
  error : Option String
  executed : Option String
  deriving DecidableEq

/-- Embedding of `POST /api/query/local` (`server/index.js` lines 23-37). -/
def handleLocal (oracle : Oracle) (sql : String) (st : Engine) : LocalResult :=
  if sql = "" then
    { state := st, data := none, error := some "SQL query is required", executed := none }
  else
    match executeSQL oracle sql st with
    | (exq, Except.error e) => { state := st, data := none, error := some e, executed := exq }
    | (exq, Except.ok rows) => { state := st, data := some rows, error := none, executed := exq }

/-- The generated relation names of a request, one per scanned occurrence,
derived from the query text alone. -/
def requestNames (sql : String) : List String :=
  (scanRefs sql).map (fun m => tempTableName m.label)

/-- Client-side node state: the cached results of the node carrying a
label (`results: any[] | null` in `src/utils/database.ts`). -/
structure NodeData where
  results : Option (List Row)
  deriving DecidableEq

def notFoundMsg (label : String) : String :=
  "Node with label \"" ++ label ++ "\" not found"

/-- One client-side resolution step succeeds when the node exists and has
a nonempty cached result list. -/
def nodeOk (n : Option NodeData) : Bool :=
  match n with
  | none => false
  | some nd =>
    match nd.results with
    | none => false
    | some rows => !rows.isEmpty

/-- The client validation loop of `src/utils/database.ts` lines 47-60: for
each match in order, a missing node aborts with the not-found error and a
node without results aborts with the no-results error. -/
def clientCheck (getNodeByLabel : String → Option NodeData) :
    List Reference → Option String
  | [] => none
  | m :: rest =>
    match getNodeByLabel m.label with
    | none => some (notFoundMsg m.label)
    | some nd =>
      match nd.results with
      | none => some (noResultsMsg m.label)
      | some rows =>
        if rows.isEmpty then some (noResultsMsg m.label)
        else clientCheck getNodeByLabel rest

/-- The references object the client posts to the server: one entry per
validated matched label. -/
def buildRefs (getNodeByLabel : String → Option NodeData) (ms : List Reference)
    (l : String) : Option RefData :=
  if ms.any (fun m => m.label = l) then
    (getNodeByLabel l).map (fun nd => { results := nd.results })
  else none

deriving instance DecidableEq for Except

/-- Observable outcome of one client call: final engine catalog, the
returned data or thrown error, and whether the server was reached. -/
structure ClientResult where
  state : Engine
  result : Except String (List Row)
  serverCalled : Bool
  deriving DecidableEq

/-- Embedding of the client `executeSQL` (`src/utils/database.ts` lines
4-29): trim, reject an empty query locally, otherwise post the trimmed
text to the plain endpoint and rethrow any reported error. -/
def clientExecuteSQL (oracle : Oracle) (sql : String) (st : Engine) : ClientResult :=
  let t := jsTrim sql
  if t = "" then { state := st, result := Except.error "Empty query", serverCalled := false }
  else
    let r := handleLocal oracle t st
    match r.error with
    | some e => { state := r.state, result := Except.error e, serverCalled := true }
    | none => { state := r.state, result := Except.ok (r.data.getD []), serverCalled := true }

/-- Embedding of the client `executeSQLWithReferences`
(`src/utils/database.ts` lines 32-84): trim, reject an empty query,
scan, validate every matched label against node state, and only then post
the query with the references object to the with-references endpoint. -/
def clientExecuteSQLWithReferences (oracle : Oracle)
    (getNodeByLabel : String → Option NodeData) (sql : String) (st : Engine) : ClientResult :=
  let t := jsTrim sql
  if t = "" then { state := st, result := Except.error "Empty query", serverCalled := false }
  else
    let ms := scanRefs t
    match clientCheck getNodeByLabel ms with
    | some e => { state := st, result := Except.error e, serverCalled := false }
    | none =>
      let r := handleWithReferences oracle t (buildRefs getNodeByLabel ms) st
      match r.error with
      | some e => { state := r.state, result := Except.error e, serverCalled := true }
      | none => { state := r.state, result := Except.ok (r.data.getD []), serverCalled := true }

/-- The raw span a scanned inner text came from. -/
def rawSpanOf (inner : List Char) : List Char := openBrace :: inner ++ [closeBrace]

/-- Decomposition form of the scan loop: same automaton as `scanInners`,
additionally keeping the literal text. It returns one pair per match
(the literal segment preceding the match, the inner text of the match)
plus the trailing literal segment. seg holds the reversed current
segment, and the third argument is the same state as in `scanInners`. -/
def splitAux : List Char → List Char → Option (List Char) →
    List (List Char × List Char) × List Char
  | [], seg, none => ([], seg.reverse)
  | [], seg, some acc => ([], seg.reverse ++ openBrace :: acc.reverse)
  | c :: rest, seg, none =>
    if c = openBrace then splitAux rest seg (some [])
    else splitAux rest (c :: seg) none
  | c :: rest, seg, some acc =>
    if c = closeBrace then
      if acc.isEmpty then splitAux rest (closeBrace :: openBrace :: seg) none
      else
        let p := splitAux rest [] none
        ((seg.reverse, acc.reverse) :: p.1, p.2)
    else splitAux rest seg (some (c :: acc))

/-- Reassemble a decomposition, putting the raw spans back. -/
def flattenSplit (ps : List (List Char × List Char)) (tail : List Char) : List Char :=
  ps.foldr (fun p acc => p.1 ++ rawSpanOf p.2 ++ acc) tail

/-- Reassemble a decomposition with each raw span replaced by the
generated relation name of its trimmed label. -/
def flattenNames (ps : List (List Char × List Char)) (tail : List Char) : List Char :=
  ps.foldr (fun p acc => p.1 ++ (tempTableName (jsTrim (String.mk p.2))).data ++ acc) tail

/-- Brace-scanning state used to characterise strings in which the
pattern cannot match: normal text, a just-opened brace with empty inner,
or a pending open brace with nonempty inner that must never be closed. -/
inductive BraceSt where
  | normal : BraceSt
  | opened : BraceSt
  | poisoned : BraceSt
  deriving DecidableEq

def braceStep : BraceSt → Char → Option BraceSt
  | BraceSt.normal, c => if c = openBrace then some BraceSt.opened else some BraceSt.normal
  | BraceSt.opened, c => if c = closeBrace then some BraceSt.normal else some BraceSt.poisoned
  | BraceSt.poisoned, c => if c = closeBrace then none else some BraceSt.poisoned

def goodRun : List Char → BraceSt → Option BraceSt
  | [], s => some s
  | c :: rest, s =>
    match braceStep s c with
    | none => none
    | some s2 => goodRun rest s2

/-- The brace state corresponding to a scanner state. -/
def braceStOf : Option (List Char) → BraceSt
  | none => BraceSt.normal
  | some [] => BraceSt.opened
  | some (_ :: _) => BraceSt.poisoned

/-- The characters a pending scanner state still owes to the text. -/
def pendingChars : Option (List Char) → List Char
  | none => []
  | some acc => openBrace :: acc.reverse

/-- Concrete fixtures used by witnesses and counterexamples. -/
def okOracle : Oracle := fun _ _ => Except.ok []

def obS : String := String.singleton openBrace

def cbS : String := String.singleton closeBrace

def salesRows : List Row :=
  [[("city", Value.vstr "NY"), ("total", Value.vnum 100)],
   [("city", Value.vstr "LA"), ("total", Value.vnum 50)]]

def salesRefs : String → Option RefData :=
  fun l => if l = "sales" then some { results := some salesRows } else none

def dupSql : String :=
  "SELECT a.* FROM " ++ obS ++ "sales" ++ cbS ++ " a JOIN " ++ obS ++ "sales" ++ cbS ++
    " b ON a.city=b.city"

def oneSalesSql : String := "SELECT * FROM " ++ obS ++ "sales" ++ cbS

def wsSalesSql : String := "SELECT city FROM " ++ obS ++ " sales " ++ cbS

def ghostSql : String :=
  "SELECT * FROM " ++ obS ++ "a" ++ cbS ++ " JOIN " ++ obS ++ "ghost" ++ cbS ++ " ON 1=1"

def aOnlyRefs : String → Option RefData :=
  fun l => if l = "a" then some { results := some [[("x", Value.vnum 1)]] } else none

def aOnlyNodes : String → Option NodeData :=
  fun l => if l = "a" then some { results := some [[("x", Value.vnum 1)]] } else none

def emptyNodes : String → Option NodeData := fun _ => none

/-- The generated names of a reference list, in order. -/
def namesOf (ms : List Reference) : List String :=
  ms.map (fun m => tempTableName m.label)

theorem strData_append (s t : String) : (s ++ t).data = s.data ++ t.data := rfl

theorem requestNames_eq (sql : String) : requestNames sql = namesOf (scanRefs sql) := rfl

theorem cleanupTables_append (a b : List String) (st : Engine) :
    cleanupTables (a ++ b) st = cleanupTables b (cleanupTables a st) := by
  simp [cleanupTables, List.foldl_append]

theorem cleanupTables_absent (n : String) (st : Engine) (h : n ∉ st) :
    cleanupTables [n] st = st := by
  simp [cleanupTables, dropTable, h]

theorem cleanupTables_restores :
    ∀ (nw : List String) (st : Engine), nw.Nodup → (∀ n ∈ nw, n ∉ st) →
      cleanupTables nw (nw.reverse ++ st) = st
  | [], st, _, _ => by simp [cleanupTables]
  | c :: cs, st, hnd, hni => by
    have hc_st : c ∉ st := hni c (by simp)
    have hc_cs : c ∉ cs := (List.nodup_cons.mp hnd).1
    have hstate : (c :: cs).reverse ++ st = cs.reverse ++ c :: st := by simp
    have hmem : c ∈ cs.reverse ++ c :: st := by simp
    have hstep : cleanupTables (c :: cs) (cs.reverse ++ c :: st) =
        cleanupTables cs ((cs.reverse ++ c :: st).erase c) := by
      simp [cleanupTables, dropTable, hmem]
    have herase : (cs.reverse ++ c :: st).erase c = cs.reverse ++ st := by
      rw [List.erase_append_right _ (by simpa using hc_cs), List.erase_cons_head]
    rw [hstate, hstep, herase]
    exact cleanupTables_restores cs st (List.nodup_cons.mp hnd).2
      (fun n hn => hni n (List.mem_cons_of_mem _ hn))

theorem materializeLoop_shape (refs : String → Option RefData) :
    ∀ (ms : List Reference) (temps created : List String) (st : Engine),
    ∃ nw extra,
      (materializeLoop refs ms temps created st).temps = temps ++ nw ++ extra ∧
      (materializeLoop refs ms temps created st).created = created ++ nw ∧
      (materializeLoop refs ms temps created st).state = nw.reverse ++ st ∧
      nw.Nodup ∧ (∀ n ∈ nw, n ∉ st) ∧
      (∀ n ∈ nw, n ∈ namesOf ms) ∧ (∀ n ∈ extra, n ∈ namesOf ms) ∧
      ((materializeLoop refs ms temps created st).err = none → extra = []) ∧
      (extra = [] ∨ ∃ x, extra = [x] ∧ (x ∈ nw ∨ x ∈ st))
  | [], temps, created, st => by
    refine ⟨[], [], ?_, ?_, ?_, ?_, ?_, ?_, ?_, ?_, ?_⟩ <;> simp [materializeLoop]
  | m :: rest, temps, created, st => by
    by_cases hres : resolveFails (refs m.label)
    · refine ⟨[], [], ?_, ?_, ?_, ?_, ?_, ?_, ?_, ?_, ?_⟩ <;>
        simp [materializeLoop, hres]
    · by_cases hmem : tempTableName m.label ∈ st
      · refine ⟨[], [tempTableName m.label], ?_, ?_, ?_, ?_, ?_, ?_, ?_, ?_, ?_⟩ <;>
          simp [materializeLoop, hres, createTable, hmem, namesOf]
      · have hstep : materializeLoop refs (m :: rest) temps created st =
            materializeLoop refs rest (temps ++ [tempTableName m.label])
              (created ++ [tempTableName m.label]) (tempTableName m.label :: st) := by
          simp [materializeLoop, hres, createTable, hmem]
        obtain ⟨nw, extra, h1, h2, h3, h4, h5, h6, h7, h8, h9⟩ :=
          materializeLoop_shape refs rest (temps ++ [tempTableName m.label])
            (created ++ [tempTableName m.label]) (tempTableName m.label :: st)
        refine ⟨tempTableName m.label :: nw, extra, ?_, ?_, ?_, ?_, ?_, ?_, ?_, ?_, ?_⟩
        · rw [hstep, h1]; simp
        · rw [hstep, h2]; simp
        · rw [hstep, h3]; simp
        · exact List.nodup_cons.mpr
            ⟨fun hc => (h5 _ hc) (List.mem_cons_self _ _), h4⟩
        · intro n hn
          rcases List.mem_cons.mp hn with h | h
          · exact h ▸ hmem
          · exact fun hst => (h5 n h) (List.mem_cons_of_mem _ hst)
        · intro n hn
          rcases List.mem_cons.mp hn with h | h
          · simp [namesOf, h]
          · simp only [namesOf, List.map_cons, List.mem_cons]
            exact Or.inr (h6 n h)
        · intro n hn
          simp only [namesOf, List.map_cons, List.mem_cons]
          exact Or.inr (h7 n hn)
        · rw [hstep]; exact h8
        · rcases h9 with h | ⟨x, hx, hmx⟩
          · exact Or.inl h
          · refine Or.inr ⟨x, hx, ?_⟩
            rcases hmx with h | h
            · exact Or.inl (List.mem_cons_of_mem _ h)
            · rcases List.mem_cons.mp h with h | h
              · exact Or.inl (h ▸ List.mem_cons_self _ _)
              · exact Or.inr h

theorem handleWithReferences_state (oracle : Oracle) (sql : String)
    (refs : String → Option RefData) (st : Engine) (h : ¬ sql = "") :
    (handleWithReferences oracle sql refs st).state =
      cleanupTables (materializeLoop refs (scanRefs sql) [] [] st).temps
        (materializeLoop refs (scanRefs sql) [] [] st).state := by
  rcases herr : (materializeLoop refs (scanRefs sql) [] [] st).err with _ | e
  · rcases hex : executeSQL oracle
        (String.mk (rewriteChars sql.data (scanRefs sql)))
        (materializeLoop refs (scanRefs sql) [] [] st).state with ⟨exq, r⟩
    cases r <;> simp [handleWithReferences, h, herr, hex]
  · simp [handleWithReferences, h, herr]

theorem stateRestoredAux (oracle : Oracle) (sql : String)
    (refs : String → Option RefData) (st : Engine)
    (hf : ∀ n ∈ requestNames sql, n ∉ st) :
    (handleWithReferences oracle sql refs st).state = st := by
  by_cases h : sql = ""
  · simp [handleWithReferences, h]
  · rw [handleWithReferences_state oracle sql refs st h]
    obtain ⟨nw, extra, h1, h2, h3, h4, h5, h6, h7, h8, h9⟩ :=
      materializeLoop_shape refs (scanRefs sql) [] [] st
    rw [h1, h3]
    simp only [List.nil_append]
    rw [cleanupTables_append, cleanupTables_restores nw st h4 h5]
    rcases h9 with h | ⟨x, hx, hmx⟩
    · simp [h, cleanupTables]
    · subst hx
      have hxn : x ∈ namesOf (scanRefs sql) := h7 x (by simp)
      have hxst : x ∉ st := hf x (by rw [requestNames_eq]; exact hxn)
      exact cleanupTables_absent x st hxst

theorem materializeLoop_err_of_resolveFail (refs : String → Option RefData) :
    ∀ (ms : List Reference) (temps created : List String) (st : Engine),
      (∃ m ∈ ms, resolveFails (refs m.label) = true) →
      (materializeLoop refs ms temps created st).err ≠ none
  | [], _, _, _, h => by simp at h
  | m :: rest, temps, created, st, h => by
    by_cases hres : resolveFails (refs m.label)
    · simp [materializeLoop, hres]
    · by_cases hmem : tempTableName m.label ∈ st
      · simp [materializeLoop, hres, createTable, hmem]
      · have hstep : materializeLoop refs (m :: rest) temps created st =
            materializeLoop refs rest (temps ++ [tempTableName m.label])
              (created ++ [tempTableName m.label]) (tempTableName m.label :: st) := by
          simp [materializeLoop, hres, createTable, hmem]
        rw [hstep]
        obtain ⟨m2, hm2, hf2⟩ := h
        rcases List.mem_cons.mp hm2 with h2 | h2
        · exact absurd (h2 ▸ hf2) (by simpa using hres)
        · exact materializeLoop_err_of_resolveFail refs rest _ _ _ ⟨m2, h2, hf2⟩

theorem materializeLoop_err_of_dup (refs : String → Option RefData) :
    ∀ (ms : List Reference) (temps created : List String) (st : Engine),
      (¬ (namesOf ms).Nodup ∨ ∃ n ∈ namesOf ms, n ∈ st) →
      (materializeLoop refs ms temps created st).err ≠ none
  | [], _, _, _, h => by
    rcases h with h | ⟨n, hn, _⟩
    · exact absurd (by simp [namesOf] : (namesOf ([] : List Reference)).Nodup) h
    · simp [namesOf] at hn
  | m :: rest, temps, created, st, h => by
    by_cases hres : resolveFails (refs m.label)
    · simp [materializeLoop, hres]
    · by_cases hmem : tempTableName m.label ∈ st
      · simp [materializeLoop, hres, createTable, hmem]
      · have hstep : materializeLoop refs (m :: rest) temps created st =
            materializeLoop refs rest (temps ++ [tempTableName m.label])
              (created ++ [tempTableName m.label]) (tempTableName m.label :: st) := by
          simp [materializeLoop, hres, createTable, hmem]
        rw [hstep]
        apply materializeLoop_err_of_dup refs rest
        rcases h with h | ⟨n, hn, hnst⟩
        · by_cases hdup : tempTableName m.label ∈ namesOf rest
          · exact Or.inr ⟨tempTableName m.label, hdup, List.mem_cons_self _ _⟩
          · left
            intro hnd
            exact h (by simpa [namesOf, hdup] using List.nodup_cons.mpr ⟨hdup, hnd⟩)
        · have hcons : namesOf (m :: rest) = tempTableName m.label :: namesOf rest := rfl
          rw [hcons] at hn
          rcases List.mem_cons.mp hn with h2 | h2
          · subst h2; exact absurd hnst hmem
          · exact Or.inr ⟨n, h2, List.mem_cons_of_mem _ hnst⟩

theorem handleWithReferences_err (oracle : Oracle) (sql : String)
    (refs : String → Option RefData) (st : Engine) (e : String)
    (h : ¬ sql = "")
    (herr : (materializeLoop refs (scanRefs sql) [] [] st).err = some e) :
    (handleWithReferences oracle sql refs st).data = none ∧
      (handleWithReferences oracle sql refs st).error = some e ∧
      (handleWithReferences oracle sql refs st).executed = none := by
  refine ⟨?_, ?_, ?_⟩ <;> simp [handleWithReferences, h, herr]

theorem goodRun_append :
    ∀ (a b : List Char) (s : BraceSt),
      goodRun (a ++ b) s = (goodRun a s).bind (fun s2 => goodRun b s2)
  | [], b, s => by simp [goodRun]
  | c :: rest, b, s => by
    rcases h : braceStep s c with _ | s2 <;>
      simp [goodRun, h, goodRun_append rest b]

theorem wordChar_not_open (c : Char) (h : wordChar c = true) : ¬ c = openBrace := by
  intro hc
  subst hc
  exact absurd h (by decide)

theorem goodRun_word :
    ∀ (l : List Char), (∀ c ∈ l, wordChar c = true) →
      goodRun l BraceSt.normal = some BraceSt.normal
  | [], _ => rfl
  | c :: rest, h => by
    have hc : ¬ c = openBrace := wordChar_not_open c (h c (by simp))
    simp only [goodRun, braceStep, if_neg hc]
    exact goodRun_word rest (fun d hd => h d (List.mem_cons_of_mem _ hd))

theorem tempTableName_word (lab : String) :
    ∀ c ∈ (tempTableName lab).data, wordChar c = true := by
  intro c hc
  rw [tempTableName, strData_append] at hc
  rcases List.mem_append.mp hc with h | h
  · rcases (by simpa using h : c = 't' ∨ c = 'e' ∨ c = 'm' ∨ c = 'p' ∨ c = '_') with
      h | h | h | h | h <;> subst h <;> decide
  · simp only [String.data] at h
    obtain ⟨d, _, hd⟩ := List.mem_map.mp h
    rw [← hd, sanitizeChar]
    by_cases hw : wordChar d
    · simp [hw]
    · simp [hw]; decide

theorem goodRun_poisoned :
    ∀ (l : List Char), closeBrace ∉ l → goodRun l BraceSt.poisoned = some BraceSt.poisoned
  | [], _ => rfl
  | c :: rest, h => by
    have hc : ¬ c = closeBrace := fun hc => h (by simp [hc])
    simp only [goodRun, braceStep, if_neg hc]
    exact goodRun_poisoned rest (fun hr => h (List.mem_cons_of_mem _ hr))

theorem goodRun_poisoned_ne_normal :
    ∀ (l : List Char), ¬ goodRun l BraceSt.poisoned = some BraceSt.normal
  | [], h => by simp [goodRun] at h
  | c :: rest, h => by
    by_cases hc : c = closeBrace
    · simp [goodRun, braceStep, hc] at h
    · rw [goodRun, braceStep] at h
      simp only [if_neg hc] at h
      exact goodRun_poisoned_ne_normal rest h

theorem goodRun_opened_noclose (m : List Char) (h : closeBrace ∉ m) :
    (goodRun m BraceSt.opened).isSome = true := by
  cases m with
  | nil => rfl
  | cons c rest =>
    have hc : ¬ c = closeBrace := fun hc => h (by simp [hc])
    rw [goodRun, braceStep]
    simp only [if_neg hc]
    rw [goodRun_poisoned rest (fun hr => h (List.mem_cons_of_mem _ hr))]
    rfl

theorem goodRun_normal_append (a b : List Char)
    (ha : goodRun a BraceSt.normal = some BraceSt.normal)
    (hb : goodRun b BraceSt.normal = some BraceSt.normal) :
    goodRun (a ++ b) BraceSt.normal = some BraceSt.normal := by
  rw [goodRun_append, ha]
  exact hb

theorem goodRun_snoc_normal (a : List Char) (c : Char)
    (ha : goodRun a BraceSt.normal = some BraceSt.normal) (hc : ¬ c = openBrace) :
    goodRun (a ++ [c]) BraceSt.normal = some BraceSt.normal := by
  apply goodRun_normal_append a [c] ha
  simp [goodRun, braceStep, hc]

theorem scanInners_nil_iff :
    ∀ (l : List Char) (stOpt : Option (List Char)),
      scanInners l stOpt = [] ↔ (goodRun l (braceStOf stOpt)).isSome = true
  | [], stOpt => by simp [scanInners, goodRun]
  | c :: rest, none => by
    by_cases hc : c = openBrace
    · rw [scanInners, if_pos hc, goodRun]
      simp only [braceStOf, braceStep, if_pos hc]
      exact scanInners_nil_iff rest (some [])
    · rw [scanInners, if_neg hc, goodRun]
      simp only [braceStOf, braceStep, if_neg hc]
      exact scanInners_nil_iff rest none
  | c :: rest, some [] => by
    by_cases hc : c = closeBrace
    · rw [scanInners, if_pos hc]
      simp only [List.isEmpty_nil, if_pos rfl, goodRun, braceStOf, braceStep, if_pos hc]
      exact scanInners_nil_iff rest none
    · rw [scanInners, if_neg hc]
      simp only [goodRun, braceStOf, braceStep, if_neg hc]
      exact scanInners_nil_iff rest (some [c])
  | c :: rest, some (a :: as) => by
    by_cases hc : c = closeBrace
    · rw [scanInners, if_pos hc]
      simp only [List.isEmpty_cons, if_neg (by simp : ¬ false = true), goodRun,
        braceStOf, braceStep, if_pos hc]
      simp
    · rw [scanInners, if_neg hc]
      simp only [goodRun, braceStOf, braceStep, if_neg hc]
      exact scanInners_nil_iff rest (some (c :: a :: as))

theorem flattenSplit_cons (s i : List Char) (ps : List (List Char × List Char))
    (t : List Char) :
    flattenSplit ((s, i) :: ps) t = s ++ rawSpanOf i ++ flattenSplit ps t := rfl

theorem flattenNames_cons (s i : List Char) (ps : List (List Char × List Char))
    (t : List Char) :
    flattenNames ((s, i) :: ps) t =
      s ++ (tempTableName (jsTrim (String.mk i))).data ++ flattenNames ps t := rfl

theorem splitAux_emit (c : Char) (rest seg : List Char) (a : Char) (as : List Char)
    (hc : c = closeBrace) :
    splitAux (c :: rest) seg (some (a :: as)) =
      ((seg.reverse, (a :: as).reverse) :: (splitAux rest [] none).1,
        (splitAux rest [] none).2) := by
  simp [splitAux, hc]

theorem splitAux_flatten :
    ∀ (l seg : List Char) (stOpt : Option (List Char)),
      flattenSplit (splitAux l seg stOpt).1 (splitAux l seg stOpt).2 =
        seg.reverse ++ pendingChars stOpt ++ l
  | [], seg, none => by simp [splitAux, flattenSplit, pendingChars]
  | [], seg, some acc => by simp [splitAux, flattenSplit, pendingChars]
  | c :: rest, seg, none => by
    by_cases hc : c = openBrace
    · have hs : splitAux (c :: rest) seg none = splitAux rest seg (some []) := by
        simp [splitAux, hc]
      rw [hs, splitAux_flatten rest seg (some [])]
      subst hc
      simp [pendingChars]
    · have hs : splitAux (c :: rest) seg none = splitAux rest (c :: seg) none := by
        simp [splitAux, hc]
      rw [hs, splitAux_flatten rest (c :: seg) none]
      simp [pendingChars]
  | c :: rest, seg, some acc => by
    by_cases hc : c = closeBrace
    · rcases acc with _ | ⟨a, as⟩
      · have hs : splitAux (c :: rest) seg (some []) =
            splitAux rest (closeBrace :: openBrace :: seg) none := by
          simp [splitAux, hc]
        rw [hs, splitAux_flatten rest (closeBrace :: openBrace :: seg) none]
        subst hc
        simp [pendingChars]
      · rw [splitAux_emit c rest seg a as hc, flattenSplit_cons,
          splitAux_flatten rest [] none]
        subst hc
        simp [rawSpanOf, pendingChars]
    · have hs : splitAux (c :: rest) seg (some acc) =
          splitAux rest seg (some (c :: acc)) := by
        simp [splitAux, hc]
      rw [hs, splitAux_flatten rest seg (some (c :: acc))]
      simp [pendingChars]

theorem splitAux_inners :
    ∀ (l seg : List Char) (stOpt : Option (List Char)),
      (splitAux l seg stOpt).1.map (fun p => p.2) = scanInners l stOpt
  | [], seg, none => by simp [splitAux, scanInners]
  | [], seg, some acc => by simp [splitAux, scanInners]
  | c :: rest, seg, none => by
    by_cases hc : c = openBrace
    · have hs : splitAux (c :: rest) seg none = splitAux rest seg (some []) := by
        simp [splitAux, hc]
      rw [hs, splitAux_inners rest seg (some [])]
      simp [scanInners, hc]
    · have hs : splitAux (c :: rest) seg none = splitAux rest (c :: seg) none := by
        simp [splitAux, hc]
      rw [hs, splitAux_inners rest (c :: seg) none]
      simp [scanInners, hc]
  | c :: rest, seg, some acc => by
    by_cases hc : c = closeBrace
    · rcases acc with _ | ⟨a, as⟩
      · have hs : splitAux (c :: rest) seg (some []) =
            splitAux rest (closeBrace :: openBrace :: seg) none := by
          simp [splitAux, hc]
        rw [hs, splitAux_inners rest (closeBrace :: openBrace :: seg) none]
        simp [scanInners, hc]
      · rw [splitAux_emit c rest seg a as hc]
        simp only [List.map_cons]
        rw [splitAux_inners rest [] none]
        simp [scanInners, hc]
    · have hs : splitAux (c :: rest) seg (some acc) =
          splitAux rest seg (some (c :: acc)) := by
        simp [splitAux, hc]
      rw [hs, splitAux_inners rest seg (some (c :: acc))]
      simp [scanInners, hc]

theorem splitAux_inv :
    ∀ (l seg : List Char) (stOpt : Option (List Char)),
      goodRun seg.reverse BraceSt.normal = some BraceSt.normal →
      (∀ acc, stOpt = some acc → closeBrace ∉ acc) →
      (∀ p ∈ (splitAux l seg stOpt).1,
          goodRun p.1 BraceSt.normal = some BraceSt.normal ∧ p.2 ≠ [] ∧ closeBrace ∉ p.2) ∧
        (goodRun (splitAux l seg stOpt).2 BraceSt.normal).isSome = true
  | [], seg, none, hseg, _ => by
    refine ⟨by simp [splitAux], ?_⟩
    simp [splitAux, hseg]
  | [], seg, some acc, hseg, hacc => by
    refine ⟨by simp [splitAux], ?_⟩
    simp only [splitAux]
    rw [goodRun_append, hseg, Option.some_bind, goodRun, braceStep, if_pos rfl]
    exact goodRun_opened_noclose acc.reverse
      (fun h => hacc acc rfl (List.mem_reverse.mp h))
  | c :: rest, seg, none, hseg, hacc => by
    by_cases hc : c = openBrace
    · have hs : splitAux (c :: rest) seg none = splitAux rest seg (some []) := by
        simp [splitAux, hc]
      rw [hs]
      exact splitAux_inv rest seg (some []) hseg (by simp)
    · have hs : splitAux (c :: rest) seg none = splitAux rest (c :: seg) none := by
        simp [splitAux, hc]
      rw [hs]
      refine splitAux_inv rest (c :: seg) none ?_ (by simp)
      simp only [List.reverse_cons]
      exact goodRun_snoc_normal seg.reverse c hseg hc
  | c :: rest, seg, some acc, hseg, hacc => by
    by_cases hc : c = closeBrace
    · rcases acc with _ | ⟨a, as⟩
      · have hs : splitAux (c :: rest) seg (some []) =
            splitAux rest (closeBrace :: openBrace :: seg) none := by
          simp [splitAux, hc]
        rw [hs]
        refine splitAux_inv rest (closeBrace :: openBrace :: seg) none ?_ (by simp)
        simp only [List.reverse_cons, List.append_assoc]
        rw [goodRun_append, hseg, Option.some_bind]
        simp [goodRun, braceStep]
      · rw [splitAux_emit c rest seg a as hc]
        obtain ⟨hrec1, hrec2⟩ := splitAux_inv rest [] none rfl (by simp)
        constructor
        · intro p hp
          rcases List.mem_cons.mp hp with h | h
          · subst h
            refine ⟨hseg, by simp, ?_⟩
            intro h
            exact hacc (a :: as) rfl (List.mem_reverse.mp h)
          · exact hrec1 p h
        · exact hrec2
    · have hs : splitAux (c :: rest) seg (some acc) =
          splitAux rest seg (some (c :: acc)) := by
        simp [splitAux, hc]
      rw [hs]
      refine splitAux_inv rest seg (some (c :: acc)) hseg ?_
      intro acc2 h2
      cases h2
      intro hmem
      rcases List.mem_cons.mp hmem with h | h
      · exact hc h.symm
      · exact hacc acc rfl h


theorem leadsWith_self_append : ∀ (p x : List Char), leadsWith p (p ++ x) = true
  | [], _ => rfl
  | c :: ps, x => by simp [leadsWith, leadsWith_self_append ps x]

theorem replaceFirst_hit (repl x : List Char) (c : Char) (ps : List Char) :
    replaceFirst (c :: ps) repl ((c :: ps) ++ x) = repl ++ x := by
  rw [List.cons_append, replaceFirst, ← List.cons_append, leadsWith_self_append]
  simp

theorem openBrace_ne_close : ¬ openBrace = closeBrace := by decide

theorem leadsWith_cons_ne (p : Char) (ps : List Char) (c : Char) (cs : List Char)
    (h : ¬ p = c) : leadsWith (p :: ps) (c :: cs) = false := by
  simp [leadsWith, h]

theorem leadsWith_cons_eq (p : Char) (ps : List Char) (cs : List Char) :
    leadsWith (p :: ps) (p :: cs) = leadsWith ps cs := by
  simp [leadsWith]

theorem replaceFirst_cons_no (pat repl : List Char) (c : Char) (rest : List Char)
    (h : leadsWith pat (c :: rest) = false) :
    replaceFirst pat repl (c :: rest) = c :: replaceFirst pat repl rest := by
  rw [replaceFirst, h]
  simp

theorem replaceFirst_skip_fuel (d : Char) (pr repl : List Char) (hd : ¬ d = closeBrace) :
    ∀ (n : Nat) (Q X : List Char), Q.length ≤ n →
      goodRun Q BraceSt.normal = some BraceSt.normal →
      replaceFirst (openBrace :: d :: pr) repl (Q ++ X) =
        Q ++ replaceFirst (openBrace :: d :: pr) repl X := by
  intro n
  induction n with
  | zero =>
    intro Q X hl _
    have hQ : Q = [] := List.length_eq_zero.mp (Nat.le_zero.mp hl)
    subst hQ
    simp
  | succ n ih =>
    intro Q X hl hQ
    match Q with
    | [] => simp
    | c :: Q2 =>
      by_cases hc : c = openBrace
      · subst hc
        simp only [goodRun, braceStep, if_pos rfl] at hQ
        match Q2, hQ with
        | [], hQ => simp [goodRun] at hQ
        | d2 :: Q3, hQ =>
          by_cases hd2 : d2 = closeBrace
          · subst hd2
            simp only [goodRun, braceStep, if_pos rfl] at hQ
            have hlw1 : leadsWith (openBrace :: d :: pr)
                (openBrace :: closeBrace :: (Q3 ++ X)) = false := by
              rw [leadsWith_cons_eq]
              exact leadsWith_cons_ne d pr closeBrace (Q3 ++ X) hd
            have hlw2 : leadsWith (openBrace :: d :: pr)
                (closeBrace :: (Q3 ++ X)) = false :=
              leadsWith_cons_ne openBrace (d :: pr) closeBrace (Q3 ++ X) openBrace_ne_close
            rw [List.cons_append, List.cons_append,
              replaceFirst_cons_no _ _ _ _ hlw1, replaceFirst_cons_no _ _ _ _ hlw2,
              ih Q3 X (by simp at hl; omega) hQ]
            simp
          · simp [goodRun, braceStep, hd2] at hQ
            exact absurd hQ (goodRun_poisoned_ne_normal Q3)
      · simp only [goodRun, braceStep, if_neg hc] at hQ
        have hlw : leadsWith (openBrace :: d :: pr) (c :: (Q2 ++ X)) = false :=
          leadsWith_cons_ne openBrace (d :: pr) c (Q2 ++ X) (fun h => hc h.symm)
        rw [List.cons_append, replaceFirst_cons_no _ _ _ _ hlw,
          ih Q2 X (by simp at hl; omega) hQ]
        simp

theorem replaceFirst_skip (d : Char) (pr repl : List Char) (hd : ¬ d = closeBrace)
    (Q X : List Char) (hQ : goodRun Q BraceSt.normal = some BraceSt.normal) :
    replaceFirst (openBrace :: d :: pr) repl (Q ++ X) =
      Q ++ replaceFirst (openBrace :: d :: pr) repl X :=
  replaceFirst_skip_fuel d pr repl hd Q.length Q X le_rfl hQ


theorem goodRun_name (lab : String) :
    goodRun (tempTableName lab).data BraceSt.normal = some BraceSt.normal :=
  goodRun_word _ (tempTableName_word lab)

theorem rewrite_aux :
    ∀ (ps : List (List Char × List Char)) (tail P : List Char),
      goodRun P BraceSt.normal = some BraceSt.normal →
      (∀ p ∈ ps, goodRun p.1 BraceSt.normal = some BraceSt.normal ∧
        p.2 ≠ [] ∧ closeBrace ∉ p.2) →
      List.foldl (fun acc m => replaceFirst m.rawSpan (tempTableName m.label).data acc)
        (P ++ flattenSplit ps tail) (ps.map (fun p => mkRef p.2)) =
      P ++ flattenNames ps tail
  | [], tail, P, _, _ => by simp [flattenSplit, flattenNames]
  | (s, i) :: ps2, tail, P, hP, hinv => by
    obtain ⟨hs, hne, hni⟩ := hinv (s, i) (by simp)
    match i, hne, hni with
    | d :: i2, _, hni =>
      have hd : ¬ d = closeBrace := fun h => hni (by simp [h])
      have hPs : goodRun (P ++ s) BraceSt.normal = some BraceSt.normal :=
        goodRun_normal_append P s hP hs
      have hspan : (mkRef (d :: i2)).rawSpan = openBrace :: d :: (i2 ++ [closeBrace]) := by
        simp [mkRef]
      have hstep : replaceFirst (mkRef (d :: i2)).rawSpan
          (tempTableName (mkRef (d :: i2)).label).data
          (P ++ flattenSplit ((s, d :: i2) :: ps2) tail) =
          (P ++ s ++ (tempTableName (jsTrim (String.mk (d :: i2)))).data) ++
            flattenSplit ps2 tail := by
        rw [flattenSplit_cons, hspan]
        have hassoc : P ++ (s ++ rawSpanOf (d :: i2) ++ flattenSplit ps2 tail) =
            (P ++ s) ++ (rawSpanOf (d :: i2) ++ flattenSplit ps2 tail) := by
          simp
        rw [hassoc]
        rw [replaceFirst_skip d (i2 ++ [closeBrace]) _ hd (P ++ s) _ hPs]
        have hraw : rawSpanOf (d :: i2) = openBrace :: d :: (i2 ++ [closeBrace]) := by
          simp [rawSpanOf]
        rw [hraw, replaceFirst_hit]
        simp [mkRef]
      rw [List.map_cons, List.foldl_cons, hstep]
      have hrec := rewrite_aux ps2 tail
        (P ++ s ++ (tempTableName (jsTrim (String.mk (d :: i2)))).data)
        (goodRun_normal_append _ _ hPs (goodRun_name _))
        (fun p hp => hinv p (List.mem_cons_of_mem _ hp))
      rw [hrec, flattenNames_cons]
      simp

theorem flattenNames_good :
    ∀ (ps : List (List Char × List Char)) (tail : List Char),
      (∀ p ∈ ps, goodRun p.1 BraceSt.normal = some BraceSt.normal) →
      (goodRun tail BraceSt.normal).isSome = true →
      (goodRun (flattenNames ps tail) BraceSt.normal).isSome = true
  | [], tail, _, ht => ht
  | (s, i) :: ps2, tail, hinv, ht => by
    have hs := hinv (s, i) (by simp)
    have hrec := flattenNames_good ps2 tail
      (fun p hp => hinv p (List.mem_cons_of_mem _ hp)) ht
    rw [flattenNames_cons, List.append_assoc, goodRun_append, hs, Option.some_bind,
      goodRun_append, goodRun_name, Option.some_bind]
    exact hrec

theorem strMk_data (s : String) : String.mk s.data = s := rfl

theorem handleWithReferences_created (oracle : Oracle) (sql : String)
    (refs : String → Option RefData) (st : Engine) (h : ¬ sql = "") :
    (handleWithReferences oracle sql refs st).created =
      (materializeLoop refs (scanRefs sql) [] [] st).created := by
  rcases herr : (materializeLoop refs (scanRefs sql) [] [] st).err with _ | e
  · rcases hex : executeSQL oracle
        (String.mk (rewriteChars sql.data (scanRefs sql)))
        (materializeLoop refs (scanRefs sql) [] [] st).state with ⟨exq, r⟩
    cases r <;> simp [handleWithReferences, h, herr, hex]
  · simp [handleWithReferences, h, herr]

theorem trimChars_nil_all_space (l : List Char) (h : trimChars l = []) :
    ∀ c ∈ l, isSpaceChar c = true := by
  unfold trimChars at h
  have h2 : (l.dropWhile isSpaceChar).reverse.dropWhile isSpaceChar = [] := by
    have := congrArg List.reverse h
    simpa using this
  have h3 : ∀ c ∈ (l.dropWhile isSpaceChar).reverse, isSpaceChar c = true :=
    List.dropWhile_eq_nil_iff.mp h2
  have h4 : ∀ c ∈ l.dropWhile isSpaceChar, isSpaceChar c = true :=
    fun c hc => h3 c (List.mem_reverse.mpr hc)
  intro c hc
  rcases List.mem_append.mp
      (by rw [List.takeWhile_append_dropWhile] ; exact hc :
        c ∈ l.takeWhile isSpaceChar ++ l.dropWhile isSpaceChar) with h5 | h5
  · exact List.mem_takeWhile_imp h5
  · exact h4 c h5

theorem jsTrim_empty_all_space (s : String) (h : jsTrim s = "") :
    ∀ c ∈ s.data, isSpaceChar c = true := by
  apply trimChars_nil_all_space
  have := congrArg String.data h
  simpa [jsTrim] using this

theorem isSpaceChar_not_open (c : Char) (h : isSpaceChar c = true) : ¬ c = openBrace := by
  intro hc
  subst hc
  exact absurd h (by decide)

theorem scanInners_no_open :
    ∀ (l : List Char), (∀ c ∈ l, ¬ c = openBrace) → scanInners l none = []
  | [], _ => rfl
  | c :: rest, h => by
    rw [scanInners, if_neg (h c (by simp))]
    exact scanInners_no_open rest (fun d hd => h d (List.mem_cons_of_mem _ hd))

theorem scanRefs_ws_empty (sql : String) (h : jsTrim sql = "") : scanRefs sql = [] := by
  rw [scanRefs, scanInners_no_open sql.data
    (fun c hc => isSpaceChar_not_open c (jsTrim_empty_all_space sql h c hc))]
  rfl

theorem clientCheck_append_ok (getNode : String → Option NodeData) :
    ∀ (pre ms2 : List Reference), (∀ m ∈ pre, nodeOk (getNode m.label) = true) →
      clientCheck getNode (pre ++ ms2) = clientCheck getNode ms2
  | [], ms2, _ => rfl
  | m :: pre, ms2, h => by
    have hm : nodeOk (getNode m.label) = true := h m (by simp)
    rcases hg : getNode m.label with _ | nd
    · simp [nodeOk, hg] at hm
    · rcases hr : nd.results with _ | rows
      · simp [nodeOk, hg, hr] at hm
      · rcases hrows : rows with _ | ⟨r, rs⟩
        · subst hrows; simp [nodeOk, hg, hr] at hm
        · subst hrows
          simp only [List.cons_append, clientCheck, hg, hr, List.isEmpty_cons]
          rw [if_neg (by simp)]
          exact clientCheck_append_ok getNode pre ms2
            (fun m2 hm2 => h m2 (List.mem_cons_of_mem _ hm2))

theorem notFound_ne_noResults (l : String) : ¬ notFoundMsg l = noResultsMsg l := by
  intro h
  have hd := congrArg (fun s => s.data.length) h
  simp only [notFoundMsg, noResultsMsg, strData_append, List.length_append] at hd
  have h1 : ("Node with label \"".data).length = 17 := by decide
  have h2 : ("\" not found".data).length = 11 := by decide
  have h3 : ("Node \"".data).length = 6 := by decide
  have h4 : ("\" has no results".data).length = 16 := by decide
  rw [h1, h2, h3, h4] at hd
  omega

/-- C1 counterexample: for the duplicate-reference request of the claim
(the self-join query referencing the label "sales" twice, with a valid
cached node), the loop pushes the same relation name twice and attempts a
second CREATE, which fails: the request returns a duplicate-table error
instead of resolving and materializing the label exactly once. -/
theorem c1_counterexample :
    (handleWithReferences okOracle dupSql salesRefs []).attempted =
        ["temp_sales", "temp_sales"] ∧
      (handleWithReferences okOracle dupSql salesRefs []).error =
        some (dupTableMsg "temp_sales") ∧
      (handleWithReferences okOracle dupSql salesRefs []).data = none := by
  decide

/-- C1 (amended): references are processed once per occurrence with no
deduplication and the generated name depends only on the label, so any
request whose references generate duplicate relation names — in
particular two references with the same trimmed label — fails with an
error instead of materializing the label once: the query is never
executed and, provided no generated name pre-existed, the engine state is
restored. -/
theorem c1_duplicate_label_fails (oracle : Oracle) (sql : String)
    (refs : String → Option RefData) (st : Engine)
    (hdup : ¬ (requestNames sql).Nodup)
    (hfresh : ∀ n ∈ requestNames sql, n ∉ st) :
    (handleWithReferences oracle sql refs st).error ≠ none ∧
      (handleWithReferences oracle sql refs st).data = none ∧
      (handleWithReferences oracle sql refs st).executed = none ∧
      (handleWithReferences oracle sql refs st).state = st := by
  have hsql : ¬ sql = "" := by
    intro h
    subst h
    exact hdup (by decide)
  have herr : (materializeLoop refs (scanRefs sql) [] [] st).err ≠ none :=
    materializeLoop_err_of_dup refs (scanRefs sql) [] [] st
      (Or.inl (by rw [← requestNames_eq]; exact hdup))
  rcases ho : (materializeLoop refs (scanRefs sql) [] [] st).err with _ | e
  · exact absurd ho herr
  · obtain ⟨hdata, herr2, hexec⟩ := handleWithReferences_err oracle sql refs st e hsql ho
    exact ⟨by rw [herr2]; simp, hdata, hexec, stateRestoredAux oracle sql refs st hfresh⟩

/-- C1 witness: the amended theorem applied to the duplicate-sales request
on a fresh engine. -/
theorem c1_witness :
    (¬ (requestNames dupSql).Nodup) ∧
      (handleWithReferences okOracle dupSql salesRefs []).error ≠ none ∧
      (handleWithReferences okOracle dupSql salesRefs []).state = [] :=
  ⟨by decide,
    (c1_duplicate_label_fails okOracle dupSql salesRefs [] (by decide) (by decide)).1,
    (c1_duplicate_label_fails okOracle dupSql salesRefs [] (by decide) (by decide)).2.2.2⟩

/-- C2 counterexample: with a relation named "temp_sales" already present
in the engine, the request referencing label "sales" fails its CREATE and
its cleanup then drops the pre-existing relation it did not create: the
catalog after the request is empty while before it held "temp_sales". -/
theorem c2_counterexample :
    (handleWithReferences okOracle oneSalesSql salesRefs ["temp_sales"]).state = [] ∧
      ¬ (handleWithReferences okOracle oneSalesSql salesRefs ["temp_sales"]).state =
          ["temp_sales"] := by
  decide

/-- C2 (amended): for every request, provided no relation whose name
equals one of the generated names of the request existed when the request
began, the engine state after the request equals the state before it, and
every relation created during the request is gone afterwards; without
that proviso the cleanup may drop a pre-existing relation of the same
generated name. -/
theorem c2_cleanup_restores_state (oracle : Oracle) (sql : String)
    (refs : String → Option RefData) (st : Engine)
    (hfresh : ∀ n ∈ requestNames sql, n ∉ st) :
    (handleWithReferences oracle sql refs st).state = st ∧
      ∀ n ∈ (handleWithReferences oracle sql refs st).created,
        n ∉ (handleWithReferences oracle sql refs st).state := by
  have hst := stateRestoredAux oracle sql refs st hfresh
  refine ⟨hst, ?_⟩
  intro n hn
  rw [hst]
  by_cases hsql : sql = ""
  · subst hsql
    simp [handleWithReferences] at hn
  · rw [handleWithReferences_created oracle sql refs st hsql] at hn
    obtain ⟨nw, extra, h1, h2, h3, h4, h5, h6, h7, h8, h9⟩ :=
      materializeLoop_shape refs (scanRefs sql) [] [] st
    rw [h2] at hn
    simp only [List.nil_append] at hn
    exact hfresh n (by rw [requestNames_eq]; exact h6 n hn)

/-- C2 witness: the amended theorem applied to the single-reference sales
request on a fresh engine. -/
theorem c2_witness :
    (∀ n ∈ requestNames oneSalesSql, n ∉ ([] : Engine)) ∧
      (handleWithReferences okOracle oneSalesSql salesRefs []).state = [] :=
  ⟨by decide, (c2_cleanup_restores_state okOracle oneSalesSql salesRefs [] (by decide)).1⟩

/-- C3 counterexample: two distinct request texts referencing the same
label "sales" (one through a whitespace-variant raw span) generate the
identical relation name "temp_sales": the name carries no request-scoped
uniqueness token, so two concurrently in-flight requests produce the same
relation name. -/
theorem c3_counterexample :
    requestNames oneSalesSql = ["temp_sales"] ∧
      requestNames wsSalesSql = ["temp_sales"] ∧
      ¬ oneSalesSql = wsSalesSql := by
  decide

/-- C3 (amended): the generated relation name is obtained by sanitizing
the label (every character outside the word class becomes an underscore)
and prefixing the fixed marker only; no request-scoped suffix is
appended, so the name is a function of the label alone and two requests
referencing labels with equal sanitized forms produce the same name. -/
theorem c3_name_no_token :
    (∀ label : String, (tempTableName label).data =
        "temp_".data ++ label.data.map sanitizeChar) ∧
      (∀ l1 l2 : String, l1.data.map sanitizeChar = l2.data.map sanitizeChar →
        tempTableName l1 = tempTableName l2) := by
  constructor
  · intro label
    rw [tempTableName, strData_append]
  · intro l1 l2 h
    rw [tempTableName, tempTableName, h]

/-- C3 witness: two different labels with equal sanitized forms collide. -/
theorem c3_witness : tempTableName "a b" = tempTableName "a.b" :=
  c3_name_no_token.2 "a b" "a.b" (by decide)

/-- C4 counterexample: in the request referencing first the resolvable
label "a" and then the unresolvable label "ghost", the server creates the
relation "temp_a" before aborting on "ghost": a resolution failure does
not prevent relation creation for labels that resolved earlier. -/
theorem c4_counterexample :
    (handleWithReferences okOracle ghostSql aOnlyRefs []).created = ["temp_a"] ∧
      (handleWithReferences okOracle ghostSql aOnlyRefs []).error =
        some (noResultsMsg "ghost") := by
  decide

/-- C4 (amended): a resolution failure aborts the request with an error
and without executing the query; relations created for earlier labels
exist at the moment of failure but are all dropped before the request
returns, restoring the engine state (provided no generated name
pre-existed). On the client pipeline every label is validated before the
server is invoked, so a failure detected there reaches no engine state at
all. -/
theorem c4_resolution_failure_aborts (oracle : Oracle) (sql : String)
    (refs : String → Option RefData) (st : Engine)
    (hfail : ∃ m ∈ scanRefs sql, resolveFails (refs m.label) = true)
    (hfresh : ∀ n ∈ requestNames sql, n ∉ st) :
    ((handleWithReferences oracle sql refs st).error ≠ none ∧
      (handleWithReferences oracle sql refs st).data = none ∧
      (handleWithReferences oracle sql refs st).executed = none ∧
      (handleWithReferences oracle sql refs st).state = st) ∧
    (∀ (getNode : String → Option NodeData) (sql2 : String) (e : String),
      ¬ jsTrim sql2 = "" →
      clientCheck getNode (scanRefs (jsTrim sql2)) = some e →
      clientExecuteSQLWithReferences oracle getNode sql2 st =
        { state := st, result := Except.error e, serverCalled := false }) := by
  constructor
  · have hsql : ¬ sql = "" := by
      intro h
      subst h
      obtain ⟨m, hm, _⟩ := hfail
      rw [show scanRefs "" = [] from rfl] at hm
      simp at hm
    have herr := materializeLoop_err_of_resolveFail refs (scanRefs sql) [] [] st hfail
    rcases ho : (materializeLoop refs (scanRefs sql) [] [] st).err with _ | e
    · exact absurd ho herr
    · obtain ⟨hdata, herr2, hexec⟩ := handleWithReferences_err oracle sql refs st e hsql ho
      exact ⟨by rw [herr2]; simp, hdata, hexec, stateRestoredAux oracle sql refs st hfresh⟩
  · intro getNode sql2 e htrim hcheck
    simp [clientExecuteSQLWithReferences, htrim, hcheck]

/-- C4 witness: the amended theorem applied to the a-then-ghost request on
a fresh engine. -/
theorem c4_witness :
    (∃ m ∈ scanRefs ghostSql, resolveFails (aOnlyRefs m.label) = true) ∧
      (handleWithReferences okOracle ghostSql aOnlyRefs []).state = [] :=
  ⟨by decide,
    ((c4_resolution_failure_aborts okOracle ghostSql aOnlyRefs []
      (by decide) (by decide)).1).2.2.2⟩

/-- C5: resolution failures are distinguished by kind at the client
resolver: if the first failing matched reference has no node carrying its
label, the call fails with the not-found message for that label; if the
node exists but its cached results are absent or empty, it fails with the
distinct no-results message; and the two messages differ for every
label. In both cases the server — and hence the engine — is never
reached. -/
theorem c5_error_kinds (oracle : Oracle) (getNode : String → Option NodeData)
    (sql : String) (st : Engine) (pre post : List Reference) (m : Reference)
    (htrim : ¬ jsTrim sql = "")
    (hscan : scanRefs (jsTrim sql) = pre ++ m :: post)
    (hpre : ∀ m2 ∈ pre, nodeOk (getNode m2.label) = true) :
    (getNode m.label = none →
      clientExecuteSQLWithReferences oracle getNode sql st =
        { state := st, result := Except.error (notFoundMsg m.label),
          serverCalled := false }) ∧
    (∀ nd, getNode m.label = some nd → (nd.results = none ∨ nd.results = some []) →
      clientExecuteSQLWithReferences oracle getNode sql st =
        { state := st, result := Except.error (noResultsMsg m.label),
          serverCalled := false }) ∧
    ¬ notFoundMsg m.label = noResultsMsg m.label := by
  refine ⟨?_, ?_, notFound_ne_noResults m.label⟩
  · intro hg
    have hcheck : clientCheck getNode (scanRefs (jsTrim sql)) =
        some (notFoundMsg m.label) := by
      rw [hscan, clientCheck_append_ok getNode pre (m :: post) hpre]
      simp [clientCheck, hg]
    simp [clientExecuteSQLWithReferences, htrim, hcheck]
  · intro nd hg hres
    have hcheck : clientCheck getNode (scanRefs (jsTrim sql)) =
        some (noResultsMsg m.label) := by
      rw [hscan, clientCheck_append_ok getNode pre (m :: post) hpre]
      rcases hres with h | h <;> simp [clientCheck, hg, h]
    simp [clientExecuteSQLWithReferences, htrim, hcheck]

/-- C5 witness: the sales request against empty node state fails with the
not-found message without calling the server. -/
theorem c5_witness :
    clientExecuteSQLWithReferences okOracle emptyNodes oneSalesSql [] =
      { state := [], result := Except.error (notFoundMsg "sales"),
        serverCalled := false } :=
  (c5_error_kinds okOracle emptyNodes oneSalesSql [] [] []
      { rawSpan := [openBrace, 's', 'a', 'l', 'e', 's', closeBrace], label := "sales" }
      (by decide) (by decide) (by decide)).1 rfl

/-- C6: the scan decomposes the query text into literal segments and raw
spans whose concatenation is the original text; the rewriting fold
replaces each scanned occurrence exactly once, in place, by the generated
relation name of its trimmed label (equalling the segment-wise
reassembly with names); and the rewritten query scans to zero remaining
reference tokens. -/
theorem c6_rewriter_exact (sql : String) :
    flattenSplit (splitAux sql.data [] none).1 (splitAux sql.data [] none).2 =
        sql.data ∧
      rewriteChars sql.data (scanRefs sql) =
        flattenNames (splitAux sql.data [] none).1 (splitAux sql.data [] none).2 ∧
      scanRefs (String.mk (rewriteChars sql.data (scanRefs sql))) = [] := by
  obtain ⟨hinv1, hinv2⟩ := splitAux_inv sql.data [] none rfl (by simp)
  have hflat : flattenSplit (splitAux sql.data [] none).1
      (splitAux sql.data [] none).2 = sql.data := by
    rw [splitAux_flatten sql.data [] none]
    simp [pendingChars]
  have hrefs : scanRefs sql =
      (splitAux sql.data [] none).1.map (fun p => mkRef p.2) := by
    rw [scanRefs, ← splitAux_inners sql.data [] none, List.map_map]
    rfl
  have hrw : rewriteChars sql.data (scanRefs sql) =
      flattenNames (splitAux sql.data [] none).1 (splitAux sql.data [] none).2 := by
    rw [rewriteChars, hrefs]
    have hcore := rewrite_aux (splitAux sql.data [] none).1
      (splitAux sql.data [] none).2 [] rfl hinv1
    simpa [hflat] using hcore
  refine ⟨hflat, hrw, ?_⟩
  rw [hrw, scanRefs]
  have hgood : (goodRun (flattenNames (splitAux sql.data [] none).1
      (splitAux sql.data [] none).2) BraceSt.normal).isSome = true :=
    flattenNames_good _ _ (fun p hp => (hinv1 p hp).1) hinv2
  have hnil : scanInners (flattenNames (splitAux sql.data [] none).1
      (splitAux sql.data [] none).2) none = [] :=
    (scanInners_nil_iff _ none).mpr (by simpa [braceStOf] using hgood)
  rw [show (String.mk (flattenNames (splitAux sql.data [] none).1
      (splitAux sql.data [] none).2)).data =
      flattenNames (splitAux sql.data [] none).1 (splitAux sql.data [] none).2 from rfl]
  rw [hnil]
  rfl

/-- C7: the materialized column schema is the ordered key list of the
first row; numeric values are serialized unquoted as their decimal text,
null or absent values as the NULL literal, strings and booleans as
single-quoted literals built from the per-character quote escape, which
exactly doubles the number of embedded quote characters; and the CREATE
statement is assembled from these pieces. -/
theorem c7_serialization :
    (∀ (r : Row) (rs : List Row), headKeys (r :: rs) = r.map (fun p => p.1)) ∧
      (∀ n : Int, serializeVal (some (Value.vnum n)) = toString n) ∧
      serializeVal none = "NULL" ∧
      serializeVal (some Value.vnull) = "NULL" ∧
      (∀ s : String, (serializeVal (some (Value.vstr s))).data =
        squote :: escapeQuotes s.data ++ [squote]) ∧
      (∀ b : Bool, (serializeVal (some (Value.vbool b))).data =
        squote :: escapeQuotes (jsStringOfBool b).data ++ [squote]) ∧
      (∀ l : List Char, (escapeQuotes l).count squote = 2 * l.count squote) ∧
      (∀ name rows, createTableSQL name rows =
        "CREATE TEMP TABLE " ++ name ++ " AS SELECT * FROM (VALUES " ++
          valuesClause (headKeys rows) rows ++ ") AS t(" ++
          columnAliases (headKeys rows) ++ ")") := by
  refine ⟨fun r rs => rfl, fun n => rfl, rfl, rfl, fun s => rfl, fun b => rfl,
    ?_, fun name rows => rfl⟩
  intro l
  induction l with
  | nil => rfl
  | cons c l ih =>
    rw [escapeQuotes, List.flatMap_cons]
    rw [show l.flatMap escQuote = escapeQuotes l from rfl]
    rw [List.count_append, ih]
    by_cases hc : c = squote
    · subst hc
      simp [escQuote, List.count_cons]
      omega
    · simp [escQuote, List.count_cons, hc]

/-- C8: a query containing no reference token behaves identically through
the with-references endpoint and the plain endpoint — same final state,
data, error and executed text — and attempts and creates zero ephemeral
relations. -/
theorem c8_no_refs_plain (oracle : Oracle) (refs : String → Option RefData)
    (st : Engine) (sql : String) (h : scanRefs sql = []) :
    (handleWithReferences oracle sql refs st).state =
        (handleLocal oracle sql st).state ∧
      (handleWithReferences oracle sql refs st).data =
        (handleLocal oracle sql st).data ∧
      (handleWithReferences oracle sql refs st).error =
        (handleLocal oracle sql st).error ∧
      (handleWithReferences oracle sql refs st).executed =
        (handleLocal oracle sql st).executed ∧
      (handleWithReferences oracle sql refs st).attempted = [] ∧
      (handleWithReferences oracle sql refs st).created = [] := by
  by_cases hsql : sql = ""
  · subst hsql
    refine ⟨?_, ?_, ?_, ?_, ?_, ?_⟩ <;> simp [handleWithReferences, handleLocal]
  · have hloop : materializeLoop refs (scanRefs sql) [] [] st =
        { temps := [], created := [], state := st, err := none } := by
      rw [h]
      rfl
    have hmod : String.mk (rewriteChars sql.data (scanRefs sql)) = sql := by
      rw [h]
      rfl
    rcases hex : executeSQL oracle sql st with ⟨exq, r⟩
    cases r
    all_goals
      refine ⟨?_, ?_, ?_, ?_, ?_, ?_⟩ <;>
        simp [handleWithReferences, handleLocal, hsql, hloop, hmod, hex, cleanupTables]

/-- C8 witness: a plain SELECT with no tokens gives the same data through
both endpoints. -/
theorem c8_witness :
    scanRefs "SELECT 1" = [] ∧
      (handleWithReferences okOracle "SELECT 1" (fun _ => none) []).data =
        (handleLocal okOracle "SELECT 1" []).data :=
  ⟨by decide, (c8_no_refs_plain okOracle (fun _ => none) [] "SELECT 1" (by decide)).2.1⟩

/-- C9: cleanup never escalates: the response of the with-references
endpoint (data, error, executed text, created trace) is identical to the
same pipeline with both cleanup loops removed, so a drop failure can
neither fail a successful request nor replace the error already being
returned; and a failing drop leaves the engine state unchanged. -/
theorem c9_cleanup_never_escalates (oracle : Oracle) (sql : String)
    (refs : String → Option RefData) (st : Engine) :
    ((handleWithReferences oracle sql refs st).data =
        (handleWithReferencesNoCleanup oracle sql refs st).data ∧
      (handleWithReferences oracle sql refs st).error =
        (handleWithReferencesNoCleanup oracle sql refs st).error ∧
      (handleWithReferences oracle sql refs st).executed =
        (handleWithReferencesNoCleanup oracle sql refs st).executed ∧
      (handleWithReferences oracle sql refs st).created =
        (handleWithReferencesNoCleanup oracle sql refs st).created) ∧
    (∀ (nm : String) (s : Engine), (∃ e2, dropTable nm s = Except.error e2) →
      cleanupTables [nm] s = s) := by
  constructor
  · by_cases hsql : sql = ""
    · subst hsql
      refine ⟨?_, ?_, ?_, ?_⟩ <;>
        simp [handleWithReferences, handleWithReferencesNoCleanup]
    · rcases herr : (materializeLoop refs (scanRefs sql) [] [] st).err with _ | e
      · rcases hex : executeSQL oracle (String.mk (rewriteChars sql.data (scanRefs sql)))
            (materializeLoop refs (scanRefs sql) [] [] st).state with ⟨exq, r⟩
        cases r
        all_goals
          refine ⟨?_, ?_, ?_, ?_⟩ <;>
            simp [handleWithReferences, handleWithReferencesNoCleanup, hsql, herr, hex]
      · refine ⟨?_, ?_, ?_, ?_⟩ <;>
          simp [handleWithReferences, handleWithReferencesNoCleanup, hsql, herr]
  · intro nm s hdrop
    obtain ⟨e2, he⟩ := hdrop
    simp [cleanupTables, he]

/-- C9 witness: the error field of the sales request is unchanged by
cleanup, and a drop of an absent relation leaves the engine unchanged. -/
theorem c9_witness :
    (handleWithReferences okOracle oneSalesSql salesRefs []).error =
        (handleWithReferencesNoCleanup okOracle oneSalesSql salesRefs []).error ∧
      cleanupTables ["temp_x"] [] = [] :=
  ⟨((c9_cleanup_never_escalates okOracle oneSalesSql salesRefs []).1).2.1,
    (c9_cleanup_never_escalates okOracle oneSalesSql salesRefs []).2 "temp_x" []
      ⟨noTableMsg "temp_x", by decide⟩⟩

/-- C10: an empty or all-whitespace query is rejected with the Empty query
error before the engine is touched: both client paths return it without
calling the server for every oracle and node state, and on the server
paths (for a nonempty all-whitespace text) the same error is produced
with no execution, no relation attempted or created, and the engine state
unchanged. -/
theorem c10_empty_query_rejected (oracle : Oracle)
    (getNode : String → Option NodeData) (refs : String → Option RefData)
    (st : Engine) (sql : String) (h : jsTrim sql = "") :
    clientExecuteSQL oracle sql st =
        { state := st, result := Except.error "Empty query", serverCalled := false } ∧
      clientExecuteSQLWithReferences oracle getNode sql st =
        { state := st, result := Except.error "Empty query", serverCalled := false } ∧
      (¬ sql = "" →
        (handleLocal oracle sql st).error = some "Empty query" ∧
        (handleLocal oracle sql st).executed = none ∧
        (handleWithReferences oracle sql refs st).error = some "Empty query" ∧
        (handleWithReferences oracle sql refs st).executed = none ∧
        (handleWithReferences oracle sql refs st).attempted = [] ∧
        (handleWithReferences oracle sql refs st).created = [] ∧
        (handleWithReferences oracle sql refs st).state = st) := by
  refine ⟨?_, ?_, ?_⟩
  · simp [clientExecuteSQL, h]
  · simp [clientExecuteSQLWithReferences, h]
  · intro hne
    have hscan : scanRefs sql = [] := scanRefs_ws_empty sql h
    have hloop : materializeLoop refs (scanRefs sql) [] [] st =
        { temps := [], created := [], state := st, err := none } := by
      rw [hscan]
      rfl
    have hmod : String.mk (rewriteChars sql.data (scanRefs sql)) = sql := by
      rw [hscan]
      rfl
    have hexec : executeSQL oracle sql st = (none, Except.error "Empty query") := by
      simp [executeSQL, h]
    refine ⟨?_, ?_, ?_, ?_, ?_, ?_, ?_⟩ <;>
      simp [handleLocal, handleWithReferences, hne, hloop, hmod, hexec, cleanupTables]

/-- C10 witness: a three-space query is rejected client-side with the
Empty query error and an untouched engine. -/
theorem c10_witness :
    jsTrim "   " = "" ∧
      clientExecuteSQL okOracle "   " [] =
        { state := [], result := Except.error "Empty query", serverCalled := false } :=
  ⟨by decide,
    (c10_empty_query_rejected okOracle emptyNodes (fun _ => none) [] "   "
      (by decide)).1⟩
